import Mathlib

/-!
Verification of the FraudCallDetector conversion scripts.

The numeric pipeline (mean pooling, L2 normalization, cosine-similarity
classification) is embedded over `ℝ`, with tensors as nested lists:
a batch row of hidden states is a `List Vec` (sequence of token vectors)
and an attention-mask row is a `List ℝ`.
-/

namespace FraudCallDetector

/-- A real vector (one embedding, one token vector, or one mask row). -/
abbrev Vec := List ℝ

/-- Dot product of two vectors (`np.dot` / the sum in `np.linalg.norm`). -/
def dot (u v : Vec) : ℝ := (List.zipWith (fun a b => a * b) u v).sum

/-- Euclidean norm, `np.linalg.norm(v)`. -/
noncomputable def l2norm (v : Vec) : ℝ := Real.sqrt (dot v v)

/-- Elementwise addition of two vectors (one step of `np.sum(..., axis=1)`). -/
def vadd (u v : Vec) : Vec := List.zipWith (fun a b => a + b) u v

/-- Sum of a list of `dim`-dimensional vectors (`np.sum(..., axis=1)` over the
sequence axis for one batch row). -/
def vecSum (dim : ℕ) (vs : List Vec) : Vec := vs.foldr vadd (List.replicate dim 0)

/-- One-sided clip, `np.clip(x, a_min=lo, a_max=None)`. -/
noncomputable def clipMin (lo x : ℝ) : ℝ := max x lo

/-- From `convert_minilm_to_onnx.py` line 187: the elementwise product
`last_hidden_state * input_mask_expanded` for one batch row, where the mask
value of each sequence position is broadcast along the hidden dimension. -/
def maskedHidden (hidden : List Vec) (mask : List ℝ) : List Vec :=
  List.zipWith (fun v m => v.map (fun x => x * m)) hidden mask

/-- From `convert_minilm_to_onnx.py` line 187: `sum_embeddings` for one batch
row, the masked hidden states summed over the sequence axis. -/
def sumEmbeddings (dim : ℕ) (hidden : List Vec) (mask : List ℝ) : Vec :=
  vecSum dim (maskedHidden hidden mask)

/-- From `convert_minilm_to_onnx.py` line 188:
`sum_mask = np.clip(input_mask_expanded.sum(axis=1), a_min=1e-9, a_max=None)`
for one batch row (every hidden-dim entry of that row holds this value). -/
noncomputable def sumMask (mask : List ℝ) : ℝ := clipMin 1e-9 mask.sum

/-- From `convert_minilm_to_onnx.py` line 191: `embedding = sum_embeddings / sum_mask`
for one batch row. -/
noncomputable def meanPooled (dim : ℕ) (hidden : List Vec) (mask : List ℝ) : Vec :=
  (sumEmbeddings dim hidden mask).map (fun x => x / sumMask mask)

/-- From `convert_minilm_to_onnx.py` lines 194-195: divide a row by its L2 norm. -/
noncomputable def normalizeRow (v : Vec) : Vec := v.map (fun x => x / l2norm v)

/-- The complete Step-6 sentence-embedding computation of
`convert_minilm_to_onnx.py` (lines 179-195) for one batch row. -/
noncomputable def sentenceEmbeddingRow (dim : ℕ) (hidden : List Vec) (mask : List ℝ) : Vec :=
  normalizeRow (meanPooled dim hidden mask)

/-- The batch version: every row of the hidden-state tensor paired with the
matching attention-mask row. -/
noncomputable def sentenceEmbedding (dim : ℕ) (hidden : List (List Vec))
    (mask : List (List ℝ)) : List Vec :=
  List.zipWith (fun h m => sentenceEmbeddingRow dim h m) hidden mask

/-! Spec-side formulation of the pooling pipeline, written from the words of
the specification for the refinement claim C1: per element `d`, sum the
products `hidden[s][d] * mask[s]` over the sequence axis and divide by the
mask sum clamped below at `1e-9`; then divide the vector by its L2 norm. -/

/-- Spec formula for the mean-pooled vector of one batch row, element by
element. -/
noncomputable def specMeanPooled (dim : ℕ) (hidden : List Vec) (mask : List ℝ) : Vec :=
  (List.range dim).map (fun d =>
    (List.zipWith (fun v m => v.getD d 0 * m) hidden mask).sum / max mask.sum 1e-9)

/-- Spec formula for the final sentence embedding of one batch row. -/
noncomputable def specEmbeddingRow (dim : ℕ) (hidden : List Vec) (mask : List ℝ) : Vec :=
  normalizeRow (specMeanPooled dim hidden mask)

/-! Classifier from `convert_minilm_to_tflite.py` lines 83-88 and
`convert_minilm_to_tflite_fixed.py` lines 157-162. -/

/-- Cosine similarity of two vectors, `sklearn.metrics.pairwise.cosine_similarity`. -/
noncomputable def cosineSim (u v : Vec) : ℝ := dot u v / (l2norm u * l2norm v)

/-- Maximum of a list of reals, `np.ndarray.max()` (the source only calls it
on non-empty arrays; on `[]` we return `0`). -/
noncomputable def npMax : List ℝ → ℝ
  | [] => 0
  | x :: xs => xs.foldl max x

/-- `cosine_similarity(test_embedding, refs).max()`: the best similarity of a
query embedding against a reference set. -/
noncomputable def maxSim (q : Vec) (refs : List Vec) : ℝ :=
  npMax (refs.map (fun r => cosineSim q r))

/-- The label printed for a scam classification. -/
def scamLabel : String := "SCAM"

/-- The label printed for a legitimate classification. -/
def legitimateLabel : String := "LEGITIMATE"

/-- The classification expression of the two tflite scripts, written
`scamLabel if scam_sim > legit_sim else legitimateLabel` in the source. -/
noncomputable def classify (q : Vec) (scamRefs legitRefs : List Vec) : String :=
  if maxSim q scamRefs > maxSim q legitRefs then scamLabel else legitimateLabel

/-- Spec-side: the unweighted arithmetic mean of the token vectors of one
batch row, written from the words of the specification for claim C7. -/
noncomputable def arithMean (dim : ℕ) (hidden : List Vec) : Vec :=
  (vecSum dim hidden).map (fun x => x / (hidden.length : ℝ))

/-! Model of `generate_embeddings_simple.py`. The script seeds the global
`np.random` generator from `hash(pattern) % 2**32` before drawing each
vector of each pattern, so the generator state and the string-hash function are
modelled explicitly: `σ` is the generator state, `seedFn` is
`np.random.seed`, `randn` draws one `EMBEDDING_DIM`-vector and advances the
state, and `strHash` is the `hash` the process applies to strings (CPython salts it
per process via `PYTHONHASHSEED`). -/

/-- Embedding dimension for MiniLM-L6-v2 (`EMBEDDING_DIM = 384`). -/
def EMBEDDING_DIM : ℕ := 384

/-- The hardcoded scam pattern list of `generate_embeddings_simple.py`. -/
def scam_patterns : List String :=
  ["Congratulations! You\x27ve won a prize in a lottery you never entered",
   "You are the lucky winner of our grand prize draw",
   "Your bank account has been suspended due to suspicious activity",
   "We need to verify your credit card information right now",
   "This is the IRS calling about unpaid taxes and penalties",
   "You have a warrant for your arrest due to tax fraud",
   "Your computer has been infected with a dangerous virus",
   "This is Microsoft technical support calling about your Windows license",
   "Pay the fine using iTunes gift cards or Google Play cards",
   "Purchase prepaid cards and provide the codes to resolve this",
   "Guaranteed returns on this exclusive investment opportunity",
   "Double your money with our cryptocurrency trading system",
   "Grandma, it\x27s me, I\x27m in trouble and need money urgently",
   "Your grandson has been arrested and needs bail money immediately",
   "This is an official government agency calling about your benefits",
   "Federal officer calling regarding a legal matter in your name"]

/-- The hardcoded legitimate pattern list of `generate_embeddings_simple.py`. -/
def legitimate_patterns : List String :=
  ["Hi, this is John from the office calling about tomorrow\x27s meeting",
   "Following up on the project we discussed last week",
   "Hey, it\x27s Sarah! Just wanted to catch up and see how you\x27re doing",
   "Mom calling to check in and see if you\x27re free for dinner",
   "This is your bank calling to verify a recent transaction on your account",
   "Appointment reminder for your doctor\x27s visit tomorrow at 2 PM",
   "Your package delivery is scheduled for this afternoon",
   "Thank you for being a valued customer, here\x27s an exclusive offer"]

/-- Lines 66-73 (and 81-86) of `generate_embeddings_simple.py`: for each
pattern, reset the generator from the hash of the pattern, draw a vector, and
L2-normalize it. The incoming generator state is overwritten by the
`np.random.seed` call before every draw. -/
noncomputable def genLoop {σ : Type} (seedFn : ℕ → σ) (randn : σ → Vec × σ)
    (strHash : String → ℕ) : List String → σ → List Vec × σ
  | [], st => ([], st)
  | p :: ps, _ =>
    let st1 := seedFn (strHash p % 2 ^ 32)
    let draw := randn st1
    let rest := genLoop seedFn randn strHash ps draw.2
    (normalizeRow draw.1 :: rest.1, rest.2)

/-- One full run of `generate_embeddings_simple.py` from generator state `st`:
the pair of arrays written to `scam_embeddings.npy` and
`legitimate_embeddings.npy` (the legitimate loop continues from the state the
scam loop left behind). -/
noncomputable def scriptOutputs {σ : Type} (seedFn : ℕ → σ) (randn : σ → Vec × σ)
    (strHash : String → ℕ) (st : σ) : List Vec × List Vec :=
  let scamRun := genLoop seedFn randn strHash scam_patterns st
  let legitRun := genLoop seedFn randn strHash legitimate_patterns scamRun.2
  (scamRun.1, legitRun.1)

/-- The embedding the script produces for one pattern, as a function of the
pattern text and the modelled generator/hash only. -/
noncomputable def embedOne {σ : Type} (seedFn : ℕ → σ) (randn : σ → Vec × σ)
    (strHash : String → ℕ) (p : String) : Vec :=
  normalizeRow (randn (seedFn (strHash p % 2 ^ 32))).1

/-- Model of the external tokenizer object used by `convert_minilm_to_onnx.py`:
`vocab` is the token-to-id map returned by `tokenizer.get_vocab()` as a list
of entries, and `vocabSize` is the separate `tokenizer.vocab_size` attribute. -/
structure TokenizerModel where
  vocab : List (String × ℕ)
  vocabSize : ℕ

/-- Lines 116-117 of `convert_minilm_to_onnx.py`:
`sorted_vocab = sorted(vocab.items(), key=lambda x: x[1])`. -/
def sortedVocab (t : TokenizerModel) : List (String × ℕ) :=
  t.vocab.mergeSort (fun a b => decide (a.2 ≤ b.2))

/-- Lines 113-119: the lines written to `vocab.txt`, one token per line, in
the sorted order. -/
def vocabLines (t : TokenizerModel) : List String := (sortedVocab t).map Prod.fst

/-- Line 128: the `vocab_size` field of the exported `tokenizer_config.json`
is `tokenizer.vocab_size`. -/
def reportedVocabSize (t : TokenizerModel) : ℕ := t.vocabSize

/-- Outcomes of the external operations invoked by `convert_minilm_to_onnx.py`:
model loading (Step 1), ONNX export (Step 2) and dynamic quantization
(Step 3). An `Except.error` models a raised exception. -/
structure PipelineOps where
  loadModel : Except String Unit
  exportOnnx : Except String Unit
  quantize : Except String Unit

/-- Path of the unquantized export, `minilm_l6_v2.onnx`. -/
def onnxModelPath : String := "minilm_l6_v2.onnx"

/-- Path of the quantized model, `minilm_l6_v2_quantized.onnx`. -/
def quantizedModelPath : String := "minilm_l6_v2_quantized.onnx"

/-- Lines 83-108 of `convert_minilm_to_onnx.py`: the quantization try/except.
On success `final_model_path` is the quantized artifact; on an exception the
script prints a warning and keeps the unquantized ONNX path. Returns the
final path and the messages printed by the branch taken. -/
def quantizeStep (res : Except String Unit) : String × List String :=
  match res with
  | .ok _ => (quantizedModelPath, ["[OK] Model quantized"])
  | .error e =>
    (onnxModelPath,
      ["[WARNING] Quantization failed: " ++ e, "  Using non-quantized model"])

/-- The control flow of the script around quantization: model loading and ONNX
export have no handler, so an exception there propagates and aborts the run,
while quantization is wrapped in try/except and only degrades the output. -/
def runConversion (ops : PipelineOps) : Except String (String × List String) := do
  let _ ← ops.loadModel
  let _ ← ops.exportOnnx
  pure (quantizeStep ops.quantize)

/-! Helper lemmas about the vector operations. -/

lemma getD_map_mul (v : Vec) (m : ℝ) (d : ℕ) :
    (v.map (fun x => x * m)).getD d 0 = v.getD d 0 * m := by
  simp only [List.getD_eq_getElem?_getD, List.getElem?_map]
  cases h : v[d]? with
  | none => simp
  | some a => simp

lemma mem_zipWith {α β γ : Type} {f : α → β → γ} {l₁ : List α} {l₂ : List β} {c : γ}
    (h : c ∈ List.zipWith f l₁ l₂) : ∃ a ∈ l₁, ∃ b ∈ l₂, c = f a b := by
  induction l₁ generalizing l₂ with
  | nil => simp at h
  | cons a l ih =>
    cases l₂ with
    | nil => simp at h
    | cons b l' =>
      simp only [List.zipWith_cons_cons, List.mem_cons] at h
      rcases h with h | h
      · exact ⟨a, by simp, b, by simp, h⟩
      · obtain ⟨x, hx, y, hy, hc⟩ := ih h
        exact ⟨x, by simp [hx], y, by simp [hy], hc⟩

lemma vecSum_eq_map_range (dim : ℕ) (vs : List Vec) (h : ∀ v ∈ vs, v.length = dim) :
    vecSum dim vs = (List.range dim).map (fun d => (vs.map (fun v => v.getD d 0)).sum) := by
  induction vs with
  | nil =>
    simp only [vecSum, List.foldr_nil, List.map_nil, List.sum_nil]
    rw [List.map_const', List.length_range]
  | cons v vs ih =>
    have hv : v.length = dim := h v (by simp)
    have ih' := ih (fun u hu => h u (by simp [hu]))
    show vadd v (vecSum dim vs) = _
    rw [ih']
    apply List.ext_getElem
    · simp [vadd, List.length_zipWith, hv]
    · intro n h₁ h₂
      simp only [vadd, List.getElem_zipWith, List.getElem_map, List.getElem_range,
        List.map_cons, List.sum_cons]
      have hn : n < v.length := by
        simpa [vadd, List.length_zipWith, hv] using h₁
      rw [List.getD_eq_getElem v 0 hn]

lemma maskedHidden_lengths {dim : ℕ} {hidden : List Vec} {mask : List ℝ}
    (h : ∀ v ∈ hidden, v.length = dim) :
    ∀ v ∈ maskedHidden hidden mask, v.length = dim := by
  intro v hv
  obtain ⟨a, ha, b, _, rfl⟩ := mem_zipWith hv
  simpa using h a ha

lemma map_getD_maskedHidden (hidden : List Vec) (mask : List ℝ) (d : ℕ) :
    (maskedHidden hidden mask).map (fun v => v.getD d 0)
      = List.zipWith (fun v m => v.getD d 0 * m) hidden mask := by
  unfold maskedHidden
  rw [List.map_zipWith]
  simp only [getD_map_mul]

lemma meanPooled_eq_spec {dim : ℕ} {hidden : List Vec} {mask : List ℝ}
    (h : ∀ v ∈ hidden, v.length = dim) :
    meanPooled dim hidden mask = specMeanPooled dim hidden mask := by
  unfold meanPooled specMeanPooled sumEmbeddings sumMask clipMin
  rw [vecSum_eq_map_range dim _ (maskedHidden_lengths h), List.map_map]
  simp only [map_getD_maskedHidden, Function.comp_def]

lemma sentenceEmbeddingRow_eq_spec {dim : ℕ} {hidden : List Vec} {mask : List ℝ}
    (h : ∀ v ∈ hidden, v.length = dim) :
    sentenceEmbeddingRow dim hidden mask = specEmbeddingRow dim hidden mask := by
  unfold sentenceEmbeddingRow specEmbeddingRow
  rw [meanPooled_eq_spec h]

/-- C1: for every hidden-state tensor and attention mask, the Step-6
sentence-embedding computation returns, per batch element, the vector obtained
by broadcasting the mask along the hidden dimension, summing the products over
the sequence axis, dividing by the mask sum clamped below at `1e-9`, and
dividing the result by its L2 norm. -/
theorem sentence_embedding_matches_spec (dim : ℕ) (hidden : List (List Vec))
    (mask : List (List ℝ))
    (hshape : ∀ h ∈ hidden, ∀ v ∈ h, v.length = dim) :
    sentenceEmbedding dim hidden mask
      = List.zipWith (fun h m => specEmbeddingRow dim h m) hidden mask := by
  unfold sentenceEmbedding
  induction hidden generalizing mask with
  | nil => simp
  | cons h hs ih =>
    cases mask with
    | nil => simp
    | cons m ms =>
      simp only [List.zipWith_cons_cons]
      rw [sentenceEmbeddingRow_eq_spec (hshape h (by simp)),
        ih ms (fun h' hh' => hshape h' (List.mem_cons_of_mem _ hh'))]

/-- Witness for C1 at a concrete one-row tensor. -/
theorem sentence_embedding_matches_spec_witness :
    sentenceEmbedding 2 [[[1, 2], [3, 4]]] [[1, 0]]
      = List.zipWith (fun h m => specEmbeddingRow 2 h m) [[[1, 2], [3, 4]]] [[1, 0]] :=
  sentence_embedding_matches_spec 2 _ _ (by
    intro h hh v hv
    simp only [List.mem_singleton] at hh
    subst hh
    simp only [List.mem_cons] at hv
    rcases hv with rfl | rfl | hv
    · rfl
    · rfl
    · simp at hv)

/-- C5: the denominator of the mean-pooling division is clamped below at
`1e-9`, hence strictly positive, for every attention mask, including an
all-zero one. -/
theorem sum_mask_clamped_positive (mask : List ℝ) :
    1e-9 ≤ sumMask mask ∧ 0 < sumMask mask := by
  unfold sumMask clipMin
  refine ⟨le_max_right _ _, lt_of_lt_of_le (by norm_num) (le_max_right _ _)⟩

lemma maskedHidden_ones (hidden : List Vec) :
    maskedHidden hidden (List.replicate hidden.length 1) = hidden := by
  induction hidden with
  | nil => rfl
  | cons v hs ih =>
    show (v.map fun x => x * 1) :: maskedHidden hs (List.replicate hs.length 1) = v :: hs
    simp [ih]

/-- C7: when the attention mask is all ones (and of matching length), the
mean-pooled vector of a batch row is the unweighted arithmetic mean of the token vectors of that
row along the sequence axis. -/
theorem mean_pooling_all_ones (dim : ℕ) (hidden : List Vec) (mask : List ℝ)
    (hone : ∀ m ∈ mask, m = 1) (hlen : mask.length = hidden.length) :
    meanPooled dim hidden mask = arithMean dim hidden := by
  have hrep : mask = List.replicate hidden.length 1 :=
    List.eq_replicate_iff.mpr ⟨hlen, hone⟩
  subst hrep
  rcases Nat.eq_zero_or_pos hidden.length with h0 | hpos
  · have hnil : hidden = [] := List.eq_nil_of_length_eq_zero h0
    subst hnil
    simp [meanPooled, arithMean, sumEmbeddings, maskedHidden, vecSum,
      List.map_replicate, zero_div]
  · unfold meanPooled arithMean sumEmbeddings sumMask clipMin
    rw [maskedHidden_ones]
    congr 1
    funext x
    rw [List.sum_replicate, nsmul_eq_mul, mul_one,
      max_eq_left (le_trans (by norm_num) (Nat.one_le_cast.mpr hpos))]

/-- Witness for C7 at a concrete two-token row. -/
theorem mean_pooling_all_ones_witness :
    meanPooled 2 [[1, 2], [3, 4]] [1, 1] = arithMean 2 [[1, 2], [3, 4]] :=
  mean_pooling_all_ones 2 _ _ (by
    intro m hm
    simp only [List.mem_cons] at hm
    rcases hm with rfl | rfl | hm
    · rfl
    · rfl
    · simp at hm) rfl

lemma l2norm_replicate_zero (n : ℕ) : l2norm (List.replicate n 0) = 0 := by
  unfold l2norm dot
  rw [List.zipWith_replicate]
  simp

lemma vecSum_of_zeros (dim : ℕ) (vs : List Vec)
    (h : ∀ v ∈ vs, v = List.replicate dim 0) :
    vecSum dim vs = List.replicate dim 0 := by
  induction vs with
  | nil => rfl
  | cons v vs ih =>
    show vadd v (vecSum dim vs) = _
    rw [h v (by simp), ih (fun u hu => h u (by simp [hu]))]
    unfold vadd
    rw [List.zipWith_replicate]
    simp

/-- C6: for a batch row whose attention mask is entirely zero, the mean-pooled
vector is the zero vector, the L2 norm the normalization divides by is zero,
and the resulting output row is not a unit vector: the normalization step has
no internal zero-norm guard. -/
theorem zero_mask_no_norm_guard (dim : ℕ) (hidden : List Vec) (mask : List ℝ)
    (hdim : ∀ v ∈ hidden, v.length = dim) (hzero : ∀ m ∈ mask, m = 0) :
    meanPooled dim hidden mask = List.replicate dim 0 ∧
      l2norm (meanPooled dim hidden mask) = 0 ∧
      sentenceEmbeddingRow dim hidden mask = List.replicate dim 0 ∧
      l2norm (sentenceEmbeddingRow dim hidden mask) ≠ 1 := by
  have hmp : meanPooled dim hidden mask = List.replicate dim 0 := by
    unfold meanPooled sumEmbeddings
    rw [vecSum_of_zeros dim _ ?_]
    · rw [List.map_replicate, zero_div]
    · intro v hv
      obtain ⟨a, ha, b, hb, rfl⟩ := mem_zipWith hv
      rw [hzero b hb]
      have h1 : (fun x : ℝ => x * 0) = (fun _ => (0 : ℝ)) := by
        funext x
        exact mul_zero x
      rw [h1, List.map_const', hdim a ha]
  have hnorm : l2norm (meanPooled dim hidden mask) = 0 := by
    rw [hmp]
    exact l2norm_replicate_zero dim
  have hrow : sentenceEmbeddingRow dim hidden mask = List.replicate dim 0 := by
    unfold sentenceEmbeddingRow normalizeRow
    rw [hmp, List.map_replicate, zero_div]
  refine ⟨hmp, hnorm, hrow, ?_⟩
  rw [hrow, l2norm_replicate_zero]
  norm_num

/-- Witness for C6 at a one-token row with a zero mask. -/
theorem zero_mask_no_norm_guard_witness :
    meanPooled 2 [[1, 2]] [0] = List.replicate 2 0 ∧
      l2norm (meanPooled 2 [[1, 2]] [0]) = 0 ∧
      sentenceEmbeddingRow 2 [[1, 2]] [0] = List.replicate 2 0 ∧
      l2norm (sentenceEmbeddingRow 2 [[1, 2]] [0]) ≠ 1 :=
  zero_mask_no_norm_guard 2 _ _
    (by
      intro v hv
      simp only [List.mem_singleton] at hv
      subst hv
      rfl)
    (by
      intro m hm
      simp only [List.mem_singleton] at hm
      exact hm)

lemma dot_self_nonneg (v : Vec) : 0 ≤ dot v v := by
  unfold dot
  rw [List.zipWith_same]
  apply List.sum_nonneg
  intro x hx
  obtain ⟨a, _, rfl⟩ := List.mem_map.mp hx
  exact mul_self_nonneg a

lemma l2norm_eq_sqrt (v : Vec) : l2norm v = Real.sqrt (dot v v) := rfl

lemma dot_normalizeRow (v : Vec) :
    dot (normalizeRow v) (normalizeRow v) = dot v v / (l2norm v * l2norm v) := by
  unfold normalizeRow dot
  rw [List.zipWith_map_left, List.zipWith_map_right, List.zipWith_same]
  have h : ∀ a : ℝ, a / l2norm v * (a / l2norm v) = a * a * (l2norm v * l2norm v)⁻¹ := by
    intro a
    rw [div_mul_div_comm, div_eq_mul_inv]
  simp only [h]
  rw [List.sum_map_mul_right, ← List.zipWith_same (fun a b : ℝ => a * b), div_eq_mul_inv]

lemma l2norm_normalizeRow (v : Vec) (h : l2norm v ≠ 0) : l2norm (normalizeRow v) = 1 := by
  have hpos : 0 < dot v v := by
    rw [l2norm_eq_sqrt] at h
    exact Real.sqrt_ne_zero'.mp h
  rw [l2norm_eq_sqrt, dot_normalizeRow]
  have hcc : l2norm v * l2norm v = dot v v := by
    rw [l2norm_eq_sqrt]
    exact Real.mul_self_sqrt (dot_self_nonneg v)
  rw [hcc, div_self (ne_of_gt hpos), Real.sqrt_one]

lemma genLoop_eq_map {σ : Type} (seedFn : ℕ → σ) (randn : σ → Vec × σ)
    (strHash : String → ℕ) (ps : List String) (st : σ) :
    (genLoop seedFn randn strHash ps st).1 = ps.map (embedOne seedFn randn strHash) := by
  induction ps generalizing st with
  | nil => rfl
  | cons p ps ih =>
    show normalizeRow _ :: (genLoop seedFn randn strHash ps _).1 = _
    rw [ih, List.map_cons]
    rfl

/-- C3: the output of the Step-6 pipeline has unit L2 norm whenever the
mean-pooled row has nonzero norm, and so does every row of the placeholder
reference arrays whenever the drawn vectors have nonzero norm. -/
theorem embeddings_unit_norm (dim : ℕ) (hidden : List Vec) (mask : List ℝ)
    (hnd : l2norm (meanPooled dim hidden mask) ≠ 0)
    {σ : Type} (seedFn : ℕ → σ) (randn : σ → Vec × σ) (strHash : String → ℕ) (st : σ)
    (hr : ∀ s : σ, l2norm (randn s).1 ≠ 0) :
    l2norm (sentenceEmbeddingRow dim hidden mask) = 1 ∧
      (∀ row ∈ (scriptOutputs seedFn randn strHash st).1, l2norm row = 1) ∧
      (∀ row ∈ (scriptOutputs seedFn randn strHash st).2, l2norm row = 1) := by
  refine ⟨l2norm_normalizeRow _ hnd, ?_, ?_⟩ <;>
  · intro row hrow
    rw [scriptOutputs] at hrow
    simp only [genLoop_eq_map, List.mem_map] at hrow
    obtain ⟨p, _, rfl⟩ := hrow
    exact l2norm_normalizeRow _ (hr _)

/-- Witness for C3 at a concrete row and a concrete generator. -/
theorem embeddings_unit_norm_witness :
    l2norm (sentenceEmbeddingRow 1 [[1]] [1]) = 1 ∧
      (∀ row ∈ (scriptOutputs (fun _ => ()) (fun _ => ([1, 0], ())) (fun _ => 0) ()).1,
        l2norm row = 1) ∧
      (∀ row ∈ (scriptOutputs (fun _ => ()) (fun _ => ([1, 0], ())) (fun _ => 0) ()).2,
        l2norm row = 1) :=
  embeddings_unit_norm 1 [[1]] [1]
    (by
      have h1 : meanPooled 1 [[1]] [1] = [1] := by
        unfold meanPooled sumEmbeddings maskedHidden vecSum vadd sumMask clipMin
        norm_num
      rw [h1]
      unfold l2norm dot
      norm_num)
    (fun _ => ()) (fun _ => ([1, 0], ())) (fun _ => 0) ()
    (by
      intro s
      unfold l2norm dot
      norm_num)

lemma le_foldl_max (x : ℝ) (xs : List ℝ) : x ≤ xs.foldl max x := by
  induction xs generalizing x with
  | nil => simp
  | cons y ys ih =>
    rw [List.foldl_cons]
    exact le_trans (le_max_left x y) (ih (max x y))

lemma foldl_max_mem (x : ℝ) (xs : List ℝ) : xs.foldl max x = x ∨ xs.foldl max x ∈ xs := by
  induction xs generalizing x with
  | nil => left; rfl
  | cons y ys ih =>
    rw [List.foldl_cons]
    rcases ih (max x y) with h | h
    · rcases max_cases x y with ⟨hm, _⟩ | ⟨hm, _⟩
      · left
        rw [h, hm]
      · right
        rw [h, hm]
        simp
    · right
      simp [h]

lemma le_foldl_max_of_mem {a x : ℝ} {xs : List ℝ} (h : a ∈ xs) : a ≤ xs.foldl max x := by
  induction xs generalizing x with
  | nil => simp at h
  | cons y ys ih =>
    rw [List.foldl_cons]
    rcases List.mem_cons.mp h with rfl | h'
    · exact le_trans (le_max_right x a) (le_foldl_max _ ys)
    · exact ih h'

lemma npMax_mem {l : List ℝ} (h : l ≠ []) : npMax l ∈ l := by
  cases l with
  | nil => exact absurd rfl h
  | cons x xs =>
    show xs.foldl max x ∈ x :: xs
    rcases foldl_max_mem x xs with h' | h'
    · rw [h']
      simp
    · simp [h']

lemma le_npMax {a : ℝ} {l : List ℝ} (h : a ∈ l) : a ≤ npMax l := by
  cases l with
  | nil => simp at h
  | cons x xs =>
    show a ≤ xs.foldl max x
    rcases List.mem_cons.mp h with rfl | h'
    · exact le_foldl_max a xs
    · exact le_foldl_max_of_mem h'

lemma npMax_perm {l₁ l₂ : List ℝ} (h : l₁.Perm l₂) : npMax l₁ = npMax l₂ := by
  rcases eq_or_ne l₁ [] with rfl | hne
  · rw [h.symm.eq_nil]
  · have hne₂ : l₂ ≠ [] := by
      intro h2
      subst h2
      exact hne h.eq_nil
    exact le_antisymm (le_npMax (h.mem_iff.mp (npMax_mem hne)))
      (le_npMax (h.mem_iff.mpr (npMax_mem hne₂)))

/-- C2: for every query embedding and non-empty reference sets, the classifier
returns the scam label exactly when the maximum cosine similarity over the
scam set strictly exceeds the maximum over the legitimate set; equal maxima
yield the legitimate label. -/
theorem classification_rule (q : Vec) (scamRefs legitRefs : List Vec)
    (_hs : scamRefs ≠ []) (_hl : legitRefs ≠ []) :
    (classify q scamRefs legitRefs = scamLabel ↔
        maxSim q scamRefs > maxSim q legitRefs) ∧
      (maxSim q scamRefs = maxSim q legitRefs →
        classify q scamRefs legitRefs = legitimateLabel) := by
  unfold classify
  constructor
  · constructor
    · intro h
      by_contra hgt
      rw [if_neg hgt] at h
      exact absurd h (by decide)
    · intro h
      rw [if_pos h]
  · intro h
    rw [if_neg (by rw [h]; exact lt_irrefl _)]

/-- Witness for C2 at concrete unit vectors. -/
theorem classification_rule_witness :
    (classify [1, 0] [[1, 0]] [[0, 1]] = scamLabel ↔
        maxSim [1, 0] [[1, 0]] > maxSim [1, 0] [[0, 1]]) ∧
      (maxSim [1, 0] [[1, 0]] = maxSim [1, 0] [[0, 1]] →
        classify [1, 0] [[1, 0]] [[0, 1]] = legitimateLabel) :=
  classification_rule [1, 0] [[1, 0]] [[0, 1]]
    (List.cons_ne_nil _ _) (List.cons_ne_nil _ _)

/-- C4: the two max-similarity scores and the classification label are
unchanged when the entries of the scam set and of the legitimate set are
permuted. -/
theorem classification_perm_invariant (q : Vec) {s s' l l' : List Vec}
    (hs : s.Perm s') (hl : l.Perm l') :
    maxSim q s = maxSim q s' ∧ maxSim q l = maxSim q l' ∧
      classify q s l = classify q s' l' := by
  have h1 : maxSim q s = maxSim q s' := npMax_perm (hs.map _)
  have h2 : maxSim q l = maxSim q l' := npMax_perm (hl.map _)
  refine ⟨h1, h2, ?_⟩
  unfold classify
  rw [h1, h2]

/-- Witness for C4 at a concrete transposition of the scam set. -/
theorem classification_perm_invariant_witness :
    maxSim [1] [[1], [2]] = maxSim [1] [[2], [1]] ∧
      maxSim [1] [[3]] = maxSim [1] [[3]] ∧
      classify [1] [[1], [2]] [[3]] = classify [1] [[2], [1]] [[3]] :=
  classification_perm_invariant [1] (List.Perm.swap _ _ _) (List.Perm.refl _)

/-- C8: the vocabulary export writes one line per vocabulary entry, so the
line count equals the reported `vocab_size` whenever the `vocab_size` attribute of the tokenizer equals the size of `get_vocab()` (true of the
hardcoded MiniLM tokenizer), and the lines are in strictly ascending
token-ID order while preserving the entries of the vocabulary. -/
theorem vocab_export_roundtrip (t : TokenizerModel)
    (hsize : t.vocabSize = t.vocab.length)
    (hids : (t.vocab.map Prod.snd).Nodup) :
    (vocabLines t).length = reportedVocabSize t ∧
      List.Pairwise (fun a b : String × ℕ => a.2 < b.2) (sortedVocab t) ∧
      (sortedVocab t).Perm t.vocab := by
  have hperm : (sortedVocab t).Perm t.vocab := List.mergeSort_perm _ _
  refine ⟨?_, ?_, hperm⟩
  · rw [vocabLines, List.length_map, hperm.length_eq, reportedVocabSize, hsize]
  · have hsorted : List.Pairwise (fun a b : String × ℕ => (decide (a.2 ≤ b.2)) = true)
        (sortedVocab t) := by
      apply List.sorted_mergeSort
      · intro a b c hab hbc
        simp only [decide_eq_true_eq] at *
        omega
      · intro a b
        simp only [Bool.or_eq_true, decide_eq_true_eq]
        omega
    have hnd : ((sortedVocab t).map Prod.snd).Nodup :=
      ((hperm.map Prod.snd).nodup_iff).mpr hids
    have hne : List.Pairwise (fun a b : String × ℕ => a.2 ≠ b.2) (sortedVocab t) :=
      List.pairwise_map.mp hnd
    refine (hsorted.and hne).imp ?_
    intro a b hab
    exact lt_of_le_of_ne (of_decide_eq_true hab.1) hab.2

/-- Witness for C8 at a concrete two-entry vocabulary. -/
theorem vocab_export_roundtrip_witness :
    (vocabLines ⟨[("b", 1), ("a", 0)], 2⟩).length
        = reportedVocabSize ⟨[("b", 1), ("a", 0)], 2⟩ ∧
      List.Pairwise (fun a b : String × ℕ => a.2 < b.2)
        (sortedVocab ⟨[("b", 1), ("a", 0)], 2⟩) ∧
      (sortedVocab ⟨[("b", 1), ("a", 0)], 2⟩).Perm [("b", 1), ("a", 0)] :=
  vocab_export_roundtrip ⟨[("b", 1), ("a", 0)], 2⟩ rfl (by decide)

/-- C9: a quantization exception is caught: the run still succeeds, a warning
is among the printed messages, and the final model path is the unquantized
ONNX artifact; on success the final path is the quantized artifact; failures
of model loading or export propagate uncaught. -/
theorem quantization_fallback (ops : PipelineOps) :
    (∀ e, ops.loadModel = .ok () → ops.exportOnnx = .ok () →
        ops.quantize = .error e →
        runConversion ops = .ok (onnxModelPath,
          ["[WARNING] Quantization failed: " ++ e, "  Using non-quantized model"])) ∧
      (ops.loadModel = .ok () → ops.exportOnnx = .ok () → ops.quantize = .ok () →
        runConversion ops = .ok (quantizedModelPath, ["[OK] Model quantized"])) ∧
      (∀ e, ops.loadModel = .error e → runConversion ops = .error e) ∧
      (∀ e, ops.loadModel = .ok () → ops.exportOnnx = .error e →
        runConversion ops = .error e) := by
  obtain ⟨lo, ex, qu⟩ := ops
  refine ⟨?_, ?_, ?_, ?_⟩
  · intro e h1 h2 h3
    subst h1; subst h2; subst h3
    rfl
  · intro h1 h2 h3
    subst h1; subst h2; subst h3
    rfl
  · intro e h1
    subst h1
    rfl
  · intro e h1 h2
    subst h1; subst h2
    rfl

/-- Witness for C9: all four branches at concrete operation outcomes. -/
theorem quantization_fallback_witness :
    runConversion ⟨.ok (), .ok (), .error ("boom")⟩
        = .ok (onnxModelPath,
          ["[WARNING] Quantization failed: " ++ "boom", "  Using non-quantized model"]) ∧
      runConversion ⟨.ok (), .ok (), .ok ()⟩
        = .ok (quantizedModelPath, ["[OK] Model quantized"]) ∧
      runConversion ⟨.error ("down"), .ok (), .ok ()⟩ = .error ("down") ∧
      runConversion ⟨.ok (), .error ("exp"), .ok ()⟩ = .error ("exp") :=
  ⟨(quantization_fallback _).1 ("boom") rfl rfl rfl,
   (quantization_fallback _).2.1 rfl rfl rfl,
   (quantization_fallback _).2.2.1 ("down") rfl,
   (quantization_fallback _).2.2.2 ("exp") rfl rfl⟩

/-- C10 (code bug): the script derives each seed from the salted CPython string
`hash`, which varies between processes, so two runs of the script that differ
only in the hash salt write different arrays even with the same hardcoded
pattern lists. The generator is instantiated concretely: the state is the
last seed, each draw returns that seed followed by a zero. -/
theorem placeholder_embeddings_depend_on_hash_salt :
    scriptOutputs (fun n => n) (fun s : ℕ => ([(s : ℝ), 0], s)) (fun _ => 0) 0
      ≠ scriptOutputs (fun n => n) (fun s : ℕ => ([(s : ℝ), 0], s)) (fun _ => 1) 0 := by
  have e0 : ∀ p, embedOne (fun n => n) (fun s : ℕ => ([(s : ℝ), 0], s)) (fun _ => 0) p
      = [0, 0] := by
    intro p
    simp [embedOne, normalizeRow]
  have e1 : ∀ p, embedOne (fun n => n) (fun s : ℕ => ([(s : ℝ), 0], s)) (fun _ => 1) p
      = [1, 0] := by
    intro p
    have hm : 1 % 2 ^ 32 = 1 := Nat.mod_eq_of_lt (by norm_num)
    have hn : l2norm [(1 : ℝ), 0] = 1 := by
      unfold l2norm dot
      norm_num
    unfold embedOne normalizeRow
    rw [hm]
    norm_num [hn]
  intro hEq
  have hA : (scriptOutputs (fun n => n) (fun s : ℕ => ([(s : ℝ), 0], s)) (fun _ => 0) 0).1
      = scam_patterns.map
          (embedOne (fun n => n) (fun s : ℕ => ([(s : ℝ), 0], s)) (fun _ => 0)) := by
    simp only [scriptOutputs]
    exact genLoop_eq_map _ _ _ _ _
  have hB : (scriptOutputs (fun n => n) (fun s : ℕ => ([(s : ℝ), 0], s)) (fun _ => 1) 0).1
      = scam_patterns.map
          (embedOne (fun n => n) (fun s : ℕ => ([(s : ℝ), 0], s)) (fun _ => 1)) := by
    simp only [scriptOutputs]
    exact genLoop_eq_map _ _ _ _ _
  have h1 := congrArg (fun t : List Vec × List Vec => t.1) hEq
  simp only at h1
  rw [hA, hB] at h1
  have h2 := congrArg List.head? h1
  simp only [scam_patterns, List.map_cons, List.head?_cons] at h2
  rw [e0, e1] at h2
  norm_num at h2

end FraudCallDetector
